import Mathlib

/-!
Shallow embedding of the steam-radar repository (src/storage.py,
src/steam_sources.py, src/app.py) and verification of the frozen claims
about it.

Conventions used throughout:
* instants (`time.time()` values, parsed release dates) are rationals
  measured in seconds; `datetime` arithmetic such as
  `(a - b).total_seconds() / 86400.0` becomes exact rational arithmetic;
* machine-level HTTP plumbing is abstracted behind oracles: a transport
  is a function from the attempt index to its outcome, a search page is a
  function from the page index to the app ids parsed out of that page;
* fallible Python code (exceptions) is modelled with `Option`/explicit
  outcome constructors.
-/

namespace SteamRadar

/-! ### storage.py: the TTL cache

`CacheEntry`, `CacheEntry.is_expired`, `Storage.cache_get` and
`Storage.cache_set` from src/storage.py.  The SQLite table keyed by
`key` is modelled as an association list with at most one row per key
(upsert semantics).  `time.time()` is passed in explicitly as `now`
because the embedding has no ambient clock; `cache_set` stores
`int(time.time())`, i.e. the floor of the current instant. -/

/-- A row of the `cache` table: `value_json` (already decoded), `fetched_at`
(an integer epoch second, written as `int(time.time())`), `ttl_seconds`. -/
structure CacheEntry (α : Type) where
  value : α
  fetched_at : ℤ
  ttl_seconds : ℤ
deriving DecidableEq

/-- `CacheEntry.is_expired` from src/storage.py line 36-37:
`time.time() > self.fetched_at + self.ttl_seconds` (strict comparison). -/
def CacheEntry.is_expired {α : Type} (e : CacheEntry α) (now : ℚ) : Bool :=
  decide ((e.fetched_at : ℚ) + (e.ttl_seconds : ℚ) < now)

/-- The `cache` SQLite table: one row per key. -/
abbrev Store (α : Type) := List (String × CacheEntry α)

/-- `Storage.cache_get` (src/storage.py lines 64-83): select the row for
`key`; absent row gives `None`; an expired row gives `None`; otherwise the
entry is returned. -/
def cache_get {α : Type} (s : Store α) (key : String) (now : ℚ) :
    Option (CacheEntry α) :=
  match s.find? (fun kv => kv.1 == key) with
  | none => none
  | some kv => if kv.2.is_expired now then none else some kv.2

/-- `Storage.cache_set` (src/storage.py lines 85-106): upsert — replace the
row for `key` if present, otherwise insert it, storing
`fetched_at = int(time.time())` and the given ttl. -/
def cache_set {α : Type} (s : Store α) (key : String) (v : α) (ttl : ℤ)
    (now : ℚ) : Store α :=
  if s.any (fun kv => kv.1 == key) then
    s.map (fun kv => if kv.1 == key then (key, ⟨v, ⌊now⌋, ttl⟩) else kv)
  else s ++ [(key, ⟨v, ⌊now⌋, ttl⟩)]

/-! ### steam_sources.py: the `_get` fetcher

`_get` (src/steam_sources.py lines 66-82) loops
`for attempt in range(max_retries)`; each iteration performs one
transport call `_SESSION.get(...)`.  A status in {429, 500, 502, 503,
504} triggers `time.sleep(min(8.0, 0.75 * 2 ** attempt) + random() * 0.25)`
and `continue`; any other status is returned at once.  If the loop runs
out, the last (retryable) response is returned.  A transport-level
exception from `_SESSION.get` is NOT caught anywhere in `_get`, so it
propagates from whichever attempt raised it.

The transport is an oracle from the attempt index to its outcome, the
jitter `random.random() * 0.25` is an oracle from the attempt index to
the sampled value. -/

/-- Outcome of one `_SESSION.get` call: a raised transport exception, or a
response carrying an HTTP status code. -/
inductive TransportResult
  | exc
  | resp (status : ℕ)
deriving DecidableEq

/-- Outcome of `_get` as a whole: the propagated transport exception, or a
returned response (its status code). -/
inductive GetOutcome
  | raised
  | ok (status : ℕ)
deriving DecidableEq

/-- Observable behaviour of one `_get` call: its outcome, the number of
transport requests issued, and the sequence of backoff sleeps performed. -/
structure GetResult where
  outcome : GetOutcome
  attempts : ℕ
  sleeps : List ℚ
deriving DecidableEq

/-- The retryable status set of src/steam_sources.py line 73:
`r.status_code in (429, 500, 502, 503, 504)`. -/
def retryable (s : ℕ) : Bool :=
  s == 429 || s == 500 || s == 502 || s == 503 || s == 504

/-- The deterministic part of the backoff of line 75:
`min(8.0, 0.75 * (2 ** attempt))`. -/
def backoff (a : ℕ) : ℚ := min 8 (3 / 4 * 2 ^ a)

/-- The retry loop of `_get`, with `fuel` iterations left and `a` the
absolute attempt index.  `none` models the `NameError` that line 82
(`return r`) would hit when `max_retries = 0` and `r` was never bound. -/
def getAux (t : ℕ → TransportResult) (j : ℕ → ℚ) :
    ℕ → ℕ → Option GetResult
  | 0, _ => none
  | n + 1, a =>
    match t a with
    | .exc => some ⟨.raised, a + 1, []⟩
    | .resp s =>
      if retryable s then
        if n = 0 then some ⟨.ok s, a + 1, [backoff a + j a]⟩
        else
          match getAux t j n (a + 1) with
          | none => none
          | some r => some ⟨r.outcome, r.attempts, (backoff a + j a) :: r.sleeps⟩
      else some ⟨.ok s, a + 1, []⟩

def getRun (t : ℕ → TransportResult) (j : ℕ → ℚ) (maxRetries : ℕ) :
    Option GetResult :=
  getAux t j maxRetries 0

/-! ### steam_sources.py: source adapters

`fetch_appids` (lines 134-177), `fetch_upcoming_appids` (lines 180-218)
and `fetch_appdetails` (lines 224-243).  The network is abstracted: for
the paginated search adapters, `pageIds p` is the id list that
`_parse_search_appids` extracts from the page fetched with
`start = p * per_page`; for `fetch_appdetails` the upstream oracle is the
parsed appdetails block for the requested id.  The returned `ℕ`
component counts upstream requests issued by the call (one `_get` per
search page, one `_get` per appdetails miss). -/

/-- `(cc or "US").upper()`. -/
def ccNorm (cc : String) : String :=
  (if cc = "" then "US" else cc).toUpper

/-- The page loop of `fetch_appids`/`fetch_upcoming_appids`: start from
the empty list and `extend` with each page's parsed ids, pages 0 to
`pages - 1`. -/
def collectPages (pages : ℕ) (pageIds : ℕ → List ℕ) : List ℕ :=
  (List.range pages).foldl (fun acc p => acc ++ pageIds p) []

/-- One step of the dedup loop of src/steam_sources.py lines 170-177
(and 212-218): `if a not in seen: seen.add(a); out.append(a)`.  The
`seen` set always holds exactly the members of `out`, so membership is
tested on `out` directly. -/
def dedupStep (acc : List ℕ) (a : ℕ) : List ℕ :=
  if a ∈ acc then acc else acc ++ [a]

/-- The whole dedup loop: unique ids, preserving order. -/
def dedupFirst (l : List ℕ) : List ℕ := l.foldl dedupStep []

/-- `fetch_appids(storage, country, pages, per_page, sort_by,
include_tagids)`: one `_get` per page, parse ids, dedup preserving
order.  The `storage` argument is accepted but never consulted — the
function has no cache lookup or write. -/
def fetch_appids {α : Type} (_storage : Store α) (_country : String)
    (pages : ℕ) (_perPage : ℕ) (_sortBy : String) (_includeTagids : List ℕ)
    (pageIds : ℕ → List ℕ) : List ℕ × ℕ :=
  (dedupFirst (collectPages pages pageIds), pages)

/-- `fetch_upcoming_appids(storage, country, pages, per_page)`: identical
page loop and dedup, with the coming-soon filter in the request params;
again `storage` is never consulted. -/
def fetch_upcoming_appids {α : Type} (_storage : Store α)
    (_country : String) (pages : ℕ) (_perPage : ℕ)
    (pageIds : ℕ → List ℕ) : List ℕ × ℕ :=
  (dedupFirst (collectPages pages pageIds), pages)

/-- The parsed appdetails response block for one id: `fail` models a
missing block or `success: false`; `ok d` models `success: true` with
`data` field `d` (`d = none` when the block has no `data` key). -/
inductive AdResp (α : Type)
  | fail
  | ok (data : Option α)
deriving DecidableEq

/-- The cache key of src/steam_sources.py line 226. -/
def appdetailsKey (appid : ℕ) (cc : String) : String :=
  "appdetails::" ++ toString appid ++ "::" ++ cc

/-- `fetch_appdetails(storage, appid, cc)`: look up the cache key; on a
hit return the cached `data` payload without any request; on a miss issue
one `_get`; a failed block is cached as `{"data": None}` for 30 minutes,
a successful one as `{"data": data}` for 24 hours.  Returns
(result, updated store, number of upstream requests). -/
def fetch_appdetails {α : Type} (s : Store (Option α)) (now : ℚ)
    (upstream : AdResp α) (appid : ℕ) (cc : String) :
    Option α × Store (Option α) × ℕ :=
  match cache_get s (appdetailsKey appid (ccNorm cc)) now with
  | some e => (e.value, s, 0)
  | none =>
    match upstream with
    | .fail =>
      (none, cache_set s (appdetailsKey appid (ccNorm cc)) none 1800 now, 1)
    | .ok d =>
      (d, cache_set s (appdetailsKey appid (ccNorm cc)) d 86400 now, 1)

/-! ### Release-date classification

`parse_release`, `release_date_text`, `is_coming_soon` and the TWO
`classify_upcoming` functions: the one defined in src/app.py lines 80-99
(the copy the scanner actually calls — app.py does not import the
library one) and the one defined in src/steam_sources.py lines 369-401.

The appdetails payload is projected onto the fields these functions
read.  The `strptime` format ladder of `parse_release` (a locale-driven
string parser) is abstracted into the `parsedRelease` field: the
concrete UTC instant (epoch seconds) the ladder produces, or `none` when
no format matches (blank text, year-only, quarter, "Coming Soon", …).
`upcomingHint` records whether `_UPCOMING_HINT_RE` matches the release
text. -/

/-- The slice of an appdetails `data` dict that release classification
reads: `release_date_text(data)` (stripped, `""` when absent), the
`coming_soon` flag (`true` only when present as the boolean `True`),
whether `_UPCOMING_HINT_RE` matches the text, and `parse_release(data)`. -/
structure AppData where
  releaseText : String
  comingSoon : Bool
  upcomingHint : Bool
  parsedRelease : Option ℚ
deriving DecidableEq

/-- `is_coming_soon` (src/steam_sources.py lines 352-366): the boolean
`coming_soon` flag, or a non-empty release text matching the
upcoming-hint pattern. -/
def is_coming_soon (d : AppData) : Bool :=
  d.comingSoon || (!(d.releaseText == "") && d.upcomingHint)

/-- Python 3 `round` to an integer: round half to even (the argument is
taken to be an exactly-represented value). -/
def pyRound (q : ℚ) : ℤ :=
  if q - ⌊q⌋ < 1 / 2 then ⌊q⌋
  else if q - ⌊q⌋ > 1 / 2 then ⌊q⌋ + 1
  else if ⌊q⌋ % 2 = 0 then ⌊q⌋ else ⌊q⌋ + 1

/-- `classify_upcoming` as defined in src/app.py lines 80-99 — the copy
the scan loop calls.  With no parsed instant: keep iff `include_unknown`.
With a parsed instant: `days_until = (rel - now).total_seconds()/86400.0`;
keep iff `0 <= days_until <= float(window_days)`; the returned
`days_until` is the raw fraction in every parsed case. -/
def app_classify_upcoming (d : AppData) (nowUtc : ℚ) (windowDays : ℕ)
    (includeUnknown : Bool) : Bool × Option ℚ :=
  match d.parsedRelease with
  | none => (includeUnknown, none)
  | some rel =>
    if 0 ≤ (rel - nowUtc) / 86400 ∧ (rel - nowUtc) / 86400 ≤ (windowDays : ℚ)
    then (true, some ((rel - nowUtc) / 86400))
    else (false, some ((rel - nowUtc) / 86400))

/-- `classify_upcoming` as defined in src/steam_sources.py lines 369-401
— the library copy, which the scanner does NOT import.  With a parsed
instant: reject if `delta_days < 0` or `delta_days > window_days`,
otherwise keep with `int(round(delta_days))`.  With no parsed instant:
keep iff `include_unknown` when `is_coming_soon` holds or the release
text is non-empty; otherwise reject. -/
def ss_classify_upcoming (d : AppData) (nowUtc : ℚ) (windowDays : ℕ)
    (includeUnknown : Bool) : Bool × Option ℤ :=
  match d.parsedRelease with
  | some rel =>
    if (rel - nowUtc) / 86400 < 0 then (false, none)
    else if (rel - nowUtc) / 86400 > (windowDays : ℚ) then (false, none)
    else (true, some (pyRound ((rel - nowUtc) / 86400)))
  | none =>
    if is_coming_soon d then (includeUnknown, none)
    else if d.releaseText ≠ "" then (includeUnknown, none)
    else (false, none)

/-- Decision of the new-releases branch of the scan loop (src/app.py
lines 495-504): no parsed date bumps `newrelease_no_date`; an age outside
`[0, window_days]` bumps `newrelease_wrong_window`; otherwise the item
proceeds as kept. -/
inductive NRDecision
  | keep
  | noDate
  | wrongWindow
deriving DecidableEq

/-- The new-releases window check of src/app.py lines 495-504:
`age_days = (now - release_dt).total_seconds() / 86400.0`, rejected when
`age_days < 0 or age_days > window_days`. -/
def classifyNewRelease (release : Option ℚ) (now : ℚ) (windowDays : ℕ) :
    NRDecision :=
  match release with
  | none => .noDate
  | some r =>
    if (now - r) / 86400 < 0 ∨ (now - r) / 86400 > (windowDays : ℚ)
    then .wrongWindow
    else .keep

/-! ### Aggregation: percent positive

The new-releases aggregation of src/app.py lines 594-595: per app id the
grouped rows' `_reviews_total` and `_reviews_pos` columns are summed and
the percentage `pos / total * 100` is rounded to one decimal. -/

/-- Round to one decimal, as `pandas.Series.round(1)` does (half to
even). -/
def round1 (q : ℚ) : ℚ := (pyRound (10 * q) : ℚ) / 10

/-- `pct_pos` of src/app.py lines 594-595 for one app id:
`obs` is the list of that id's per-country observations
`(_reviews_total, _reviews_pos)`; both columns are summed over the group
and the ratio is scaled to a percentage and rounded to 1 decimal. -/
def pct_pos (obs : List (ℕ × ℕ)) : ℚ :=
  round1 ((obs.map (fun p => (p.2 : ℚ))).sum /
    (obs.map (fun p => (p.1 : ℚ))).sum * 100)

/-! ### The Run Scan country loop (src/app.py lines 363-570)

The loop is modelled at country granularity.  Per country the scan:
breaks out when `processed_apps >= max_apps`; fetches the id list
(which may raise → exception logged with the mode's stage name, country
skipped); truncates the ids to
`min(per_country_budget, max(0, max_apps - processed_apps))`; fetches
the detail batch (may raise → logged with stage
"fetch_appdetails_batch", country skipped); then processes each id,
incrementing `processed_apps` exactly once per id.  The per-item
pipeline (detail lookup, type/tag/term filters, the mode's window
classification, the review fetch) is abstracted into an outcome oracle
`item : appid → ItemResult`; the rejection constructors correspond to
the `dbg` counters of src/app.py lines 383-394, and `classifyNewRelease`
above is the exact embedding of the decision feeding `noDate` /
`wrongWindow`. -/

/-- Rejection reasons: the `dbg` counters an item decision can bump
(src/app.py lines 383-394, one per `continue` branch of the item loop). -/
inductive RejectReason
  | missingDetails
  | nonGame
  | tagOr
  | includeTerms
  | excludeTerms
  | noDate
  | wrongWindow
  | upcomingReject
deriving DecidableEq

/-- Outcome of the per-item pipeline for one id: kept (a row is
appended), rejected for a counted reason, or an exception (logged with
stage "process_app"). -/
inductive ItemResult
  | kept
  | rejected (r : RejectReason)
  | raised
deriving DecidableEq

/-- One country's upstream behaviour during a scan: its code, the id-list
fetch result (`none` models a raised exception), whether the detail
batch raises, and the per-item outcome. -/
structure CountrySpec where
  cc : String
  idsResult : Option (List ℕ)
  detailsRaise : Bool
  item : ℕ → ItemResult

/-- Scan-scoped mutable state: `processed_apps`, the accumulated `rows`
(app id and observing country), the exception log (stage, country),
`dbg["exceptions"]`, `dbg["kept"]`, and the multiset of rejection
reasons (the remaining `dbg` counters, as an append log). -/
structure ScanState where
  processed : ℕ
  rows : List (ℕ × String)
  exceptions : List (String × String)
  dbgExceptions : ℕ
  dbgKept : ℕ
  rejects : List RejectReason
deriving DecidableEq

/-- State at scan start (src/app.py lines 365-394). -/
def initScanState : ScanState := ⟨0, [], [], 0, 0, []⟩

/-- One iteration of `for appid in appids` (src/app.py lines 459-565):
`processed_apps += 1` happens first in every case. -/
def processItem (cc : String) (item : ℕ → ItemResult) (st : ScanState)
    (a : ℕ) : ScanState :=
  match item a with
  | .kept =>
    { st with
      processed := st.processed + 1
      rows := st.rows ++ [(a, cc)]
      dbgKept := st.dbgKept + 1 }
  | .rejected r =>
    { st with
      processed := st.processed + 1
      rejects := st.rejects ++ [r] }
  | .raised =>
    { st with
      processed := st.processed + 1
      dbgExceptions := st.dbgExceptions + 1
      exceptions := st.exceptions ++ [("process_app", cc)] }

/-- One country of the scan loop (src/app.py lines 403-567, minus the
break which lives in `scanLoop`). -/
def scanCountry (upcoming : Bool) (maxApps share : ℕ) (c : CountrySpec)
    (s : ScanState) : ScanState :=
  match c.idsResult with
  | none =>
    { s with
      dbgExceptions := s.dbgExceptions + 1
      exceptions := s.exceptions ++
        [((if upcoming then "fetch_upcoming_appids" else "fetch_appids"),
          c.cc)] }
  | some ids =>
    if c.detailsRaise then
      { s with
        dbgExceptions := s.dbgExceptions + 1
        exceptions := s.exceptions ++ [("fetch_appdetails_batch", c.cc)] }
    else
      (ids.take (min share (maxApps - s.processed))).foldl
        (processItem c.cc c.item) s

/-- The `for cc in active_countries` loop with its leading
`if processed_apps >= max_apps: break`. -/
def scanLoop (upcoming : Bool) (maxApps share : ℕ) :
    List CountrySpec → ScanState → ScanState
  | [], s => s
  | c :: rest, s =>
    if maxApps ≤ s.processed then s
    else scanLoop upcoming maxApps share rest
      (scanCountry upcoming maxApps share c s)

/-- A whole scan: `per_country_budget = max(1, max_apps //
len(active_countries))` is computed once (src/app.py line 396), then the
country loop runs from the fresh state. -/
def runScan (upcoming : Bool) (maxApps : ℕ) (cs : List CountrySpec) :
    ScanState :=
  scanLoop upcoming maxApps (max 1 (maxApps / cs.length)) cs initScanState

/-! ### Theorems -/

theorem find_cache_set {α : Type} (s : Store α) (key : String)
    (v : α) (ttl : ℤ) (now : ℚ) :
    (cache_set s key v ttl now).find? (fun kv => kv.1 == key) =
      some (key, (⟨v, ⌊now⌋, ttl⟩ : CacheEntry α)) := by
  unfold cache_set
  induction s with
  | nil => simp
  | cons kv t ih =>
    by_cases h : kv.1 = key
    · simp [List.any_cons, h, List.find?]
    · have hb : (kv.1 == key) = false := by simp [h]
      rcases ht : t.any (fun kv => kv.1 == key) with _ | _
      · simp only [List.any_cons, hb, ht, Bool.false_or, if_neg Bool.false_ne_true,
          List.cons_append, List.find?, hb]
        simpa [ht] using ih
      · simp only [List.any_cons, hb, ht, Bool.false_or, if_pos rfl,
          List.map_cons, hb, if_neg Bool.false_ne_true, List.find?]
        simpa [ht] using ih

theorem cache_get_cache_set_same {α : Type} (s : Store α) (key : String)
    (v : α) (ttl : ℤ) (now t : ℚ) :
    cache_get (cache_set s key v ttl now) key t =
      if t ≤ (⌊now⌋ : ℚ) + (ttl : ℚ) then some ⟨v, ⌊now⌋, ttl⟩ else none := by
  unfold cache_get
  rw [find_cache_set]
  simp only [CacheEntry.is_expired]
  by_cases h : (⌊now⌋ : ℚ) + (ttl : ℚ) < t
  · rw [if_pos (by simpa using h), if_neg (by linarith)]
  · rw [if_neg (by simpa using h), if_pos (by linarith)]

/-- Claim C3 (amended): `get(k)` after `set(k, v, ttl)` at instant `now`
returns the stored value iff the lookup instant `t` satisfies
`t ≤ fetchedAt + ttl` (with `fetchedAt = ⌊now⌋`); the boundary is
inclusive — at the exact instant `t = fetchedAt + ttl` the entry is still
returned, and only once `t > fetchedAt + ttl` is it treated as absent.
Moreover `get` never returns an expired entry: any entry it returns
satisfies `t ≤ fetchedAt + ttl`. -/
theorem cache_ttl_boundary {α : Type} (s : Store α) (k : String) (v : α)
    (ttl : ℤ) (now t : ℚ) :
    ((cache_get (cache_set s k v ttl now) k t).map CacheEntry.value =
      if t ≤ (⌊now⌋ : ℚ) + (ttl : ℚ) then some v else none)
    ∧ (∀ e : CacheEntry α, cache_get s k t = some e →
        t ≤ (e.fetched_at : ℚ) + (e.ttl_seconds : ℚ)) := by
  constructor
  · rw [cache_get_cache_set_same]
    by_cases h : t ≤ (⌊now⌋ : ℚ) + (ttl : ℚ) <;> simp [h]
  · intro e he
    unfold cache_get at he
    rcases hf : s.find? (fun kv => kv.1 == k) with _ | kv
    · rw [hf] at he; exact absurd he (by simp)
    · rw [hf] at he
      dsimp only at he
      by_cases hexp : kv.2.is_expired t = true
      · rw [if_pos hexp] at he; exact absurd he (by simp)
      · rw [if_neg hexp] at he
        have : kv.2 = e := by simpa using he
        subst this
        simpa [CacheEntry.is_expired, not_lt] using hexp

/-- Witness for C3's amended theorem: a value set at instant 0 with ttl 10
is still returned at instant 5. -/
theorem cache_ttl_boundary_witness :
    (cache_get (cache_set ([] : Store ℕ) "k" 7 10 0) "k" 5).map
      CacheEntry.value = some 7 := by
  have h := (cache_ttl_boundary ([] : Store ℕ) "k" 7 10 0 5).1
  rw [h, if_pos (by norm_num)]

/-- Counterexample to C3 as stated: the claim demands that at the exact
expiry instant `now = fetchedAt + ttl` the entry be absent; in the code
`is_expired` is the strict comparison `now > fetched_at + ttl`, so an
entry set at instant 0 with ttl 10 is still returned at instant 10. -/
theorem cache_ttl_boundary_counterexample :
    ¬ (cache_get (cache_set ([] : Store ℕ) "k" 1 10 0) "k" 10 = none) := by
  have h := cache_get_cache_set_same ([] : Store ℕ) "k" 1 10 0 10
  rw [if_pos (by norm_num)] at h
  intro hnone
  rw [hnone] at h
  exact absurd h (by simp)

theorem getAux_isSome (t : ℕ → TransportResult) (j : ℕ → ℚ) :
    ∀ n a, 0 < n → getAux t j n a ≠ none := by
  intro n
  induction n with
  | zero => intro a h; exact absurd h (by omega)
  | succ m ih =>
    intro a _
    unfold getAux
    cases ht : t a with
    | exc => simp
    | resp s =>
      dsimp only
      by_cases hr : retryable s = true
      · rw [if_pos hr]
        by_cases hm : m = 0
        · rw [if_pos hm]; simp
        · rw [if_neg hm]
          rcases hk : getAux t j m (a + 1) with _ | r
          · exact absurd hk (ih (a + 1) (Nat.pos_of_ne_zero hm))
          · simp
      · rw [if_neg hr]; simp

theorem getAux_attempts_le (t : ℕ → TransportResult) (j : ℕ → ℚ) :
    ∀ n a r, getAux t j n a = some r → r.attempts ≤ a + n := by
  intro n
  induction n with
  | zero => intro a r h; exact absurd h (by simp [getAux])
  | succ m ih =>
    intro a r h
    unfold getAux at h
    cases ht : t a with
    | exc =>
      rw [ht] at h
      dsimp only at h
      simp only [Option.some.injEq] at h
      subst h
      dsimp only
      omega
    | resp s =>
      rw [ht] at h
      dsimp only at h
      by_cases hr : retryable s = true
      · rw [if_pos hr] at h
        by_cases hm : m = 0
        · rw [if_pos hm] at h
          simp only [Option.some.injEq] at h
          subst h
          dsimp only
          omega
        · rw [if_neg hm] at h
          rcases hk : getAux t j m (a + 1) with _ | r2
          · rw [hk] at h; exact absurd h (by simp)
          · rw [hk] at h
            have h2 := ih (a + 1) r2 hk
            simp only [Option.some.injEq] at h
            subst h
            dsimp only
            omega
      · rw [if_neg hr] at h
        simp only [Option.some.injEq] at h
        subst h
        dsimp only
        omega

theorem getAux_const_retryable (s : ℕ) (hs : retryable s = true)
    (j : ℕ → ℚ) :
    ∀ n a, 0 < n → getAux (fun _ => TransportResult.resp s) j n a =
      some ⟨GetOutcome.ok s, a + n,
        (List.range n).map (fun i => backoff (a + i) + j (a + i))⟩ := by
  intro n
  induction n with
  | zero => intro a h; exact absurd h (by omega)
  | succ m ih =>
    intro a _
    unfold getAux
    dsimp only
    rw [if_pos hs]
    by_cases hm : m = 0
    · subst hm
      rw [if_pos rfl]
      simp [List.range_succ]
    · rw [if_neg hm]
      rw [ih (a + 1) (Nat.pos_of_ne_zero hm)]
      dsimp only
      simp only [Option.some.injEq, GetResult.mk.injEq]
      refine ⟨trivial, by omega, ?_⟩
      rw [List.range_succ_eq_map]
      simp only [List.map_cons, Nat.add_zero, List.map_map, List.cons.injEq]
      refine ⟨trivial, ?_⟩
      apply List.map_congr_left
      intro i _
      simp only [Function.comp_apply]
      have h3 : a + 1 + i = a + (i + 1) := by omega
      rw [h3]

/-- Claim C2 (amended): `_get` retries only on HTTP status in
{429, 500, 502, 503, 504}; between attempts (and after the final
retryable attempt) it sleeps `min(8, 0.75 * 2^attempt) + jitter`; it
issues at most `max_retries` requests and, when every attempt yields a
retryable status, returns the final attempt's response after exactly
`max_retries` requests; a non-retryable status is returned immediately
with no backoff sleep; and a transport exception is NOT retried — it
propagates immediately from the attempt that raised it (here attempt 0,
after exactly one request and no sleep). -/
theorem get_retry_policy (t : ℕ → TransportResult) (j : ℕ → ℚ) (m s : ℕ)
    (hm : 0 < m) :
    (∀ r, getRun t j m = some r → r.attempts ≤ m)
    ∧ (getRun t j m ≠ none)
    ∧ (t 0 = TransportResult.resp s → retryable s = false →
        getRun t j m = some ⟨GetOutcome.ok s, 1, []⟩)
    ∧ (retryable s = true →
        getRun (fun _ => TransportResult.resp s) j m =
          some ⟨GetOutcome.ok s, m,
            (List.range m).map (fun i => backoff i + j i)⟩)
    ∧ (t 0 = TransportResult.exc →
        getRun t j m = some ⟨GetOutcome.raised, 1, []⟩) := by
  refine ⟨?_, getAux_isSome t j m 0 hm, ?_, ?_, ?_⟩
  · intro r h
    simpa using getAux_attempts_le t j m 0 r h
  · intro ht hs
    rcases m with _ | k
    · exact absurd hm (by omega)
    · unfold getRun getAux
      rw [ht]
      dsimp only
      rw [if_neg (by simp [hs])]
  · intro hs
    have h := getAux_const_retryable s hs j m 0 hm
    unfold getRun
    rw [h]
    simp
  · intro ht
    rcases m with _ | k
    · exact absurd hm (by omega)
    · unfold getRun getAux
      rw [ht]

/-- Witness for C2's amended theorem: a 404 on the first attempt is
returned immediately, after one request and with no backoff sleep. -/
theorem get_retry_policy_witness :
    getRun (fun _ => TransportResult.resp 404) (fun _ => 0) 6 =
      some ⟨GetOutcome.ok 404, 1, []⟩ :=
  (get_retry_policy (fun _ => TransportResult.resp 404) (fun _ => 0) 6 404
    (by norm_num)).2.2.1 rfl (by decide)

/-- Counterexample to C2 as stated: the claim says `_get` retries on
transport failure up to the fixed maximum attempt count (6).  With a
transport that raises on every attempt, the code issues exactly one
request and propagates the exception — it never makes the 6 attempts the
claim requires. -/
theorem get_retry_policy_counterexample :
    (getRun (fun _ => TransportResult.exc) (fun _ => 0) 6).map
        GetResult.attempts = some 1
    ∧ ¬ ((getRun (fun _ => TransportResult.exc) (fun _ => 0) 6).map
        GetResult.attempts = some 6) := by
  constructor
  · rfl
  · intro h
    have h1 : (getRun (fun _ => TransportResult.exc) (fun _ => 0) 6).map
        GetResult.attempts = some 1 := rfl
    rw [h1] at h
    simp at h

theorem mem_foldl_dedupStep (l : List ℕ) :
    ∀ (acc : List ℕ) (a : ℕ), a ∈ l.foldl dedupStep acc ↔ a ∈ acc ∨ a ∈ l := by
  induction l with
  | nil => intro acc a; simp
  | cons x t ih =>
    intro acc a
    rw [List.foldl_cons, ih]
    unfold dedupStep
    by_cases hx : x ∈ acc
    · rw [if_pos hx]
      constructor
      · rintro (h | h)
        · exact Or.inl h
        · exact Or.inr (List.mem_cons_of_mem x h)
      · rintro (h | h)
        · exact Or.inl h
        · rcases List.mem_cons.mp h with h2 | h2
          · subst h2; exact Or.inl hx
          · exact Or.inr h2
    · rw [if_neg hx]
      simp only [List.mem_append, List.mem_singleton, List.mem_cons]
      tauto

theorem nodup_foldl_dedupStep (l : List ℕ) :
    ∀ acc : List ℕ, acc.Nodup → (l.foldl dedupStep acc).Nodup := by
  induction l with
  | nil => intro acc h; simpa using h
  | cons x t ih =>
    intro acc h
    rw [List.foldl_cons]
    apply ih
    unfold dedupStep
    by_cases hx : x ∈ acc
    · rwa [if_pos hx]
    · rw [if_neg hx]
      simp [List.nodup_append, h, hx]

theorem foldl_dedupStep_invariant (todo : List ℕ) :
    ∀ (done acc : List ℕ),
      (∀ a, a ∈ acc ↔ a ∈ done) →
      acc.Pairwise (fun a b => done.indexOf a < done.indexOf b) →
      (todo.foldl dedupStep acc).Pairwise
        (fun a b => (done ++ todo).indexOf a < (done ++ todo).indexOf b) := by
  induction todo with
  | nil =>
    intro done acc hmem hpw
    simpa using hpw
  | cons x t ih =>
    intro done acc hmem hpw
    rw [List.foldl_cons]
    have hassoc : done ++ x :: t = (done ++ [x]) ++ t := by simp
    rw [hassoc]
    apply ih (done ++ [x]) (dedupStep acc x)
    · intro a
      unfold dedupStep
      by_cases hx : x ∈ acc
      · rw [if_pos hx]
        rw [hmem a]
        constructor
        · intro h; exact List.mem_append_left _ h
        · intro h
          rcases List.mem_append.mp h with h2 | h2
          · exact h2
          · have : a = x := by simpa using h2
            subst this
            exact (hmem a).mp hx
      · rw [if_neg hx]
        simp only [List.mem_append, List.mem_singleton]
        rw [hmem a]
    · unfold dedupStep
      by_cases hx : x ∈ acc
      · rw [if_pos hx]
        apply hpw.imp_of_mem
        intro a b ha hb hab
        have ha2 : a ∈ done := (hmem a).mp ha
        have hb2 : b ∈ done := (hmem b).mp hb
        rwa [List.indexOf_append_of_mem ha2, List.indexOf_append_of_mem hb2]
      · rw [if_neg hx]
        rw [List.pairwise_append]
        refine ⟨?_, by simp, ?_⟩
        · apply hpw.imp_of_mem
          intro a b ha hb hab
          have ha2 : a ∈ done := (hmem a).mp ha
          have hb2 : b ∈ done := (hmem b).mp hb
          rwa [List.indexOf_append_of_mem ha2, List.indexOf_append_of_mem hb2]
        · intro a ha b hb
          have hb2 : b = x := by simpa using hb
          rw [hb2]
          have ha2 : a ∈ done := (hmem a).mp ha
          have hxdone : x ∉ done := fun hc => hx ((hmem x).mpr hc)
          rw [List.indexOf_append_of_mem ha2, List.indexOf_append_of_not_mem hxdone]
          have := List.indexOf_lt_length.mpr ha2
          simp only [List.indexOf_cons_self]
          omega

theorem mem_dedupFirst (l : List ℕ) (a : ℕ) : a ∈ dedupFirst l ↔ a ∈ l := by
  unfold dedupFirst
  rw [mem_foldl_dedupStep]
  simp

theorem nodup_dedupFirst (l : List ℕ) : (dedupFirst l).Nodup :=
  nodup_foldl_dedupStep l [] List.nodup_nil

theorem pairwise_dedupFirst (l : List ℕ) :
    (dedupFirst l).Pairwise (fun a b => l.indexOf a < l.indexOf b) := by
  have h := foldl_dedupStep_invariant l [] [] (by simp) (by simp)
  simpa [dedupFirst] using h

/-- Claim C9: each id-search adapter returns the ids collected across the
requested pages, deduplicated: each collected id appears exactly once,
and the output is ordered by first appearance in the collected sequence
(`Pairwise` over first-occurrence indices).  The number of upstream
requests is one per page. -/
theorem appid_dedup_first_order {α : Type} (s : Store α)
    (country sortBy : String) (tagids : List ℕ) (pages perPage : ℕ)
    (pageIds : ℕ → List ℕ) :
    (fetch_appids s country pages perPage sortBy tagids pageIds).1 =
        dedupFirst (collectPages pages pageIds)
    ∧ (fetch_upcoming_appids s country pages perPage pageIds).1 =
        dedupFirst (collectPages pages pageIds)
    ∧ (∀ a, a ∈ (fetch_appids s country pages perPage sortBy tagids pageIds).1
        ↔ a ∈ collectPages pages pageIds)
    ∧ (fetch_appids s country pages perPage sortBy tagids pageIds).1.Nodup
    ∧ (∀ a, a ∈ collectPages pages pageIds →
        (fetch_appids s country pages perPage sortBy tagids pageIds).1.count a = 1)
    ∧ (fetch_appids s country pages perPage sortBy tagids pageIds).1.Pairwise
        (fun a b => (collectPages pages pageIds).indexOf a <
          (collectPages pages pageIds).indexOf b)
    ∧ (fetch_appids s country pages perPage sortBy tagids pageIds).2 = pages := by
  refine ⟨rfl, rfl, ?_, nodup_dedupFirst _, ?_, pairwise_dedupFirst _, rfl⟩
  · intro a; exact mem_dedupFirst _ a
  · intro a ha
    exact List.count_eq_one_of_mem (nodup_dedupFirst _)
      ((mem_dedupFirst _ a).mpr ha)

/-- Witness for the C9 theorem: two pages `[5, 6]` and `[6, 7]` yield an
output in which the duplicated id 6 appears exactly once. -/
theorem appid_dedup_first_order_witness :
    (fetch_appids ([] : Store ℕ) "US" 2 50 "Released_DESC" []
      (fun p => if p = 0 then [5, 6] else [6, 7])).1.count 6 = 1 :=
  (appid_dedup_first_order ([] : Store ℕ) "US" "Released_DESC" [] 2 50
      (fun p => if p = 0 then [5, 6] else [6, 7])).2.2.2.2.1 6 (by decide)

theorem fetch_appdetails_requests_le_one {α : Type} (s : Store (Option α))
    (now : ℚ) (u : AdResp α) (appid : ℕ) (cc : String) :
    (fetch_appdetails s now u appid cc).2.2 ≤ 1 := by
  unfold fetch_appdetails
  cases hc : cache_get s (appdetailsKey appid (ccNorm cc)) now with
  | none => rcases u with _ | d <;> simp
  | some e => simp

/-- Claim C1 (amended): the cache-guarded adapter `fetch_appdetails`
looks up its cache key, returns the cached payload on a hit without any
upstream request, and on a miss issues one request and writes the result
with its source TTL (30 min for a failed block, 24 h for a success) — so
two calls with the same parameters, the second no later than the
earliest possible expiry (`fetchedAt + 1800`), issue at most one
upstream request in total.  The id-search adapters, by contrast, never
consult the cache: every call to `fetch_appids` or
`fetch_upcoming_appids` issues one request per page. -/
theorem adapter_cache_idempotence {α : Type} (s : Store (Option α))
    (now t : ℚ) (u u2 : AdResp α) (appid : ℕ) (cc : String)
    (h2 : t ≤ (⌊now⌋ : ℚ) + 1800) :
    ((fetch_appdetails s now u appid cc).2.2 +
      (fetch_appdetails (fetch_appdetails s now u appid cc).2.1 t u2
        appid cc).2.2 ≤ 1)
    ∧ (∀ (s2 : Store α) (country sortBy : String) (pages perPage : ℕ)
        (tagids : List ℕ) (pageIds : ℕ → List ℕ),
        (fetch_appids s2 country pages perPage sortBy tagids pageIds).2 = pages
        ∧ (fetch_upcoming_appids s2 country pages perPage pageIds).2 = pages) := by
  constructor
  · have hsecond : ∀ (ttl : ℤ) (v : Option α), (1800 : ℤ) ≤ ttl →
        (fetch_appdetails (cache_set s (appdetailsKey appid (ccNorm cc)) v
          ttl now) t u2 appid cc).2.2 = 0 := by
      intro ttl v httl
      have hhit : cache_get (cache_set s (appdetailsKey appid (ccNorm cc)) v
          ttl now) (appdetailsKey appid (ccNorm cc)) t =
          some ⟨v, ⌊now⌋, ttl⟩ := by
        rw [cache_get_cache_set_same]
        rw [if_pos (by
          have hc2 : ((1800 : ℤ) : ℚ) ≤ (ttl : ℚ) := by exact_mod_cast httl
          push_cast at hc2 ⊢
          linarith)]
      unfold fetch_appdetails
      rw [hhit]
    cases hc : cache_get s (appdetailsKey appid (ccNorm cc)) now with
    | some e =>
      have h1 : fetch_appdetails s now u appid cc = (e.value, s, 0) := by
        unfold fetch_appdetails; rw [hc]
      rw [h1]
      have := fetch_appdetails_requests_le_one s t u2 appid cc
      simpa using this
    | none =>
      cases u with
      | fail =>
        have h1 : fetch_appdetails s now AdResp.fail appid cc =
            (none, cache_set s (appdetailsKey appid (ccNorm cc)) none 1800 now,
              1) := by
          unfold fetch_appdetails; rw [hc]
        rw [h1]
        have := hsecond 1800 none (by norm_num)
        dsimp only
        rw [this]
      | ok d =>
        have h1 : fetch_appdetails s now (AdResp.ok d) appid cc =
            (d, cache_set s (appdetailsKey appid (ccNorm cc)) d 86400 now,
              1) := by
          unfold fetch_appdetails; rw [hc]
        rw [h1]
        have := hsecond 86400 d (by norm_num)
        dsimp only
        rw [this]
  · intro s2 country sortBy pages perPage tagids pageIds
    exact ⟨rfl, rfl⟩

/-- Witness for C1's amended theorem: starting from an empty cache, a
miss at instant 0 followed by a second call at instant 1800 issues
exactly one upstream request in total. -/
theorem adapter_cache_idempotence_witness :
    (fetch_appdetails ([] : Store (Option ℕ)) 0 AdResp.fail 1 "US").2.2 +
      (fetch_appdetails
        (fetch_appdetails ([] : Store (Option ℕ)) 0 AdResp.fail 1 "US").2.1
        1800 AdResp.fail 1 "US").2.2 ≤ 1 :=
  (adapter_cache_idempotence ([] : Store (Option ℕ)) 0 1800 AdResp.fail
    AdResp.fail 1 "US" (by norm_num)).1

/-- Counterexample to C1 as stated: the claim asserts the cache-first
discipline holds in particular for `fetch_appids`; but `fetch_appids`
never reads or writes the cache, so two identical calls (one page each,
same parameters, same store) issue two upstream requests, not at most
one. -/
theorem adapter_cache_idempotence_counterexample :
    ¬ ((fetch_appids ([] : Store ℕ) "US" 1 50 "Released_DESC" []
          (fun _ => [10])).2 +
        (fetch_appids ([] : Store ℕ) "US" 1 50 "Released_DESC" []
          (fun _ => [10])).2 ≤ 1) := by
  decide

theorem processed_foldl_processItem (cc : String) (item : ℕ → ItemResult) :
    ∀ (ids : List ℕ) (st : ScanState),
      (ids.foldl (processItem cc item) st).processed =
        st.processed + ids.length := by
  intro ids
  induction ids with
  | nil => intro st; simp
  | cons a t ih =>
    intro st
    rw [List.foldl_cons, ih]
    have h : (processItem cc item st a).processed = st.processed + 1 := by
      unfold processItem
      rcases item a with _ | r | _ <;> rfl
    rw [h]
    simp only [List.length_cons]
    omega

theorem scanCountry_processed_bound (u : Bool) (maxApps share : ℕ)
    (c : CountrySpec) (s : ScanState) :
    (scanCountry u maxApps share c s).processed ≤
      s.processed + min share (maxApps - s.processed) := by
  unfold scanCountry
  cases c.idsResult with
  | none => simp
  | some ids =>
    dsimp only
    by_cases hd : c.detailsRaise = true
    · rw [if_pos hd]; simp
    · rw [if_neg hd]
      rw [processed_foldl_processItem]
      have h := List.length_take_le (min share (maxApps - s.processed)) ids
      omega

theorem scanLoop_processed_le (u : Bool) (maxApps share : ℕ) :
    ∀ (cs : List CountrySpec) (s : ScanState),
      s.processed ≤ maxApps →
      (scanLoop u maxApps share cs s).processed ≤ maxApps := by
  intro cs
  induction cs with
  | nil => intro s h; simpa using h
  | cons c rest ih =>
    intro s h
    unfold scanLoop
    by_cases hb : maxApps ≤ s.processed
    · rw [if_pos hb]; exact h
    · rw [if_neg hb]
      apply ih
      have h1 := scanCountry_processed_bound u maxApps share c s
      omega

theorem scanLoop_saturated (u : Bool) (maxApps share : ℕ) :
    ∀ (cs : List CountrySpec) (s : ScanState),
      maxApps ≤ s.processed → scanLoop u maxApps share cs s = s := by
  intro cs s h
  cases cs with
  | nil => rfl
  | cons c rest => unfold scanLoop; rw [if_pos h]

/-- Claim C4: over any non-empty country list, the total number of items
processed never exceeds `max_apps`; the per-country share is
`max(1, max_apps // len(countries))`, fixed once at scan start (the loop
is literally run with that single share value); once the running total
has reached `max_apps` no further country is processed at all; and each
country consumes at most `min(share, max_apps - processed)` — remaining
global capacity still gates the last country. -/
theorem scan_budget_invariant (u : Bool) (maxApps : ℕ)
    (cs : List CountrySpec) (_hne : cs ≠ []) :
    (runScan u maxApps cs).processed ≤ maxApps
    ∧ runScan u maxApps cs =
        scanLoop u maxApps (max 1 (maxApps / cs.length)) cs initScanState
    ∧ (∀ (share : ℕ) (s : ScanState) (cs2 : List CountrySpec),
        maxApps ≤ s.processed → scanLoop u maxApps share cs2 s = s)
    ∧ (∀ (share : ℕ) (s : ScanState) (c : CountrySpec),
        (scanCountry u maxApps share c s).processed ≤
          s.processed + min share (maxApps - s.processed)) := by
  refine ⟨?_, rfl, ?_, ?_⟩
  · exact scanLoop_processed_le u maxApps _ cs initScanState (by simp [initScanState])
  · intro share s cs2 h
    exact scanLoop_saturated u maxApps share cs2 s h
  · intro share s c
    exact scanCountry_processed_bound u maxApps share c s

/-- Witness for C4: a two-country scan with `max_apps = 3` and five
candidate ids per country processes at most 3 items. -/
theorem scan_budget_invariant_witness :
    (runScan false 3
      [⟨"US", some [1, 2, 3, 4, 5], false, fun _ => ItemResult.kept⟩,
       ⟨"DE", some [6, 7, 8, 9, 10], false, fun _ => ItemResult.kept⟩]).processed
      ≤ 3 :=
  (scan_budget_invariant false 3
    [⟨"US", some [1, 2, 3, 4, 5], false, fun _ => ItemResult.kept⟩,
     ⟨"DE", some [6, 7, 8, 9, 10], false, fun _ => ItemResult.kept⟩]
    (by simp)).1

/-- Claim C8: a country whose id-list fetch or detail-batch fetch raises
is isolated — the scan logs exactly one exception record, with the stage
string of the failing fetch and the country code, bumps
`dbg["exceptions"]` by exactly one, contributes no rows and no processed
items, and the loop then continues with the remaining countries exactly
as if starting from the post-failure state. -/
theorem country_failure_isolated (u : Bool) (maxApps share : ℕ)
    (c : CountrySpec) (s : ScanState)
    (hfail : c.idsResult = none ∨ c.detailsRaise = true) :
    (scanCountry u maxApps share c s).dbgExceptions = s.dbgExceptions + 1
    ∧ (scanCountry u maxApps share c s).rows = s.rows
    ∧ (scanCountry u maxApps share c s).processed = s.processed
    ∧ (scanCountry u maxApps share c s).exceptions = s.exceptions ++
        [((if c.idsResult = none then
            (if u then "fetch_upcoming_appids" else "fetch_appids")
          else "fetch_appdetails_batch"), c.cc)]
    ∧ (∀ rest : List CountrySpec, ¬ maxApps ≤ s.processed →
        scanLoop u maxApps share (c :: rest) s =
          scanLoop u maxApps share rest (scanCountry u maxApps share c s)) := by
  have hmain : (scanCountry u maxApps share c s).dbgExceptions = s.dbgExceptions + 1
      ∧ (scanCountry u maxApps share c s).rows = s.rows
      ∧ (scanCountry u maxApps share c s).processed = s.processed
      ∧ (scanCountry u maxApps share c s).exceptions = s.exceptions ++
          [((if c.idsResult = none then
              (if u then "fetch_upcoming_appids" else "fetch_appids")
            else "fetch_appdetails_batch"), c.cc)] := by
    unfold scanCountry
    cases hid : c.idsResult with
    | none => simp
    | some ids =>
      rcases hfail with hfail | hfail
      · rw [hid] at hfail; exact absurd hfail (by simp)
      · dsimp only
        rw [if_pos hfail, if_neg (by simp [hid])]
        simp
  refine ⟨hmain.1, hmain.2.1, hmain.2.2.1, hmain.2.2.2, ?_⟩
  intro rest hb
  show (if maxApps ≤ s.processed then s
      else scanLoop u maxApps share rest (scanCountry u maxApps share c s)) =
    scanLoop u maxApps share rest (scanCountry u maxApps share c s)
  rw [if_neg hb]

/-- Witness for C8: a scan state in which the detail batch for "DE"
raises gains exactly the one exception record
`("fetch_appdetails_batch", "DE")` and no rows. -/
theorem country_failure_isolated_witness :
    (scanCountry false 10 5 ⟨"DE", some [1, 2], true, fun _ => ItemResult.kept⟩
      initScanState).exceptions = [("fetch_appdetails_batch", "DE")] := by
  have h := (country_failure_isolated false 10 5
    ⟨"DE", some [1, 2], true, fun _ => ItemResult.kept⟩ initScanState
    (Or.inr rfl)).2.2.2.1
  simpa [initScanState] using h

/-- Claim C5: in new-releases mode an item with parsed release instant
`r` is kept iff `0 ≤ (now - r)/86400 ≤ window_days` (both bounds
inclusive: an item exactly `window_days` old is kept, one day past is
rejected), a missing date is the distinct `noDate` outcome, and the two
rejection outcomes feed two different counters (`newrelease_no_date` and
`newrelease_wrong_window` — here the `rejects` log). -/
theorem new_release_window (r now : ℚ) (w : ℕ) (cc : String)
    (item : ℕ → ItemResult) (st : ScanState) (a : ℕ) :
    (classifyNewRelease (some r) now w = NRDecision.keep ↔
      0 ≤ (now - r) / 86400 ∧ (now - r) / 86400 ≤ (w : ℚ))
    ∧ classifyNewRelease none now w = NRDecision.noDate
    ∧ classifyNewRelease (some (now - 86400 * (w : ℚ))) now w =
        NRDecision.keep
    ∧ classifyNewRelease (some (now - 86400 * ((w : ℚ) + 1))) now w =
        NRDecision.wrongWindow
    ∧ (item a = ItemResult.rejected RejectReason.noDate →
        (processItem cc item st a).rejects =
          st.rejects ++ [RejectReason.noDate])
    ∧ (item a = ItemResult.rejected RejectReason.wrongWindow →
        (processItem cc item st a).rejects =
          st.rejects ++ [RejectReason.wrongWindow]) := by
  refine ⟨?_, rfl, ?_, ?_, ?_, ?_⟩
  · unfold classifyNewRelease
    dsimp only
    by_cases h : (now - r) / 86400 < 0 ∨ (now - r) / 86400 > (w : ℚ)
    · rw [if_pos h]
      constructor
      · intro hk; exact absurd hk (by simp)
      · intro hk
        rcases h with h | h
        · linarith [hk.1]
        · linarith [hk.2]
    · rw [if_neg h]
      push_neg at h
      simp only [true_iff]
      exact ⟨by linarith [h.1], h.2⟩
  · unfold classifyNewRelease
    dsimp only
    have h : (now - (now - 86400 * (w : ℚ))) / 86400 = (w : ℚ) := by ring
    rw [h, if_neg (by push_neg; exact ⟨by positivity, le_refl _⟩)]
  · unfold classifyNewRelease
    dsimp only
    have h : (now - (now - 86400 * ((w : ℚ) + 1))) / 86400 = (w : ℚ) + 1 := by
      ring
    rw [h, if_pos (Or.inr (by linarith))]
  · intro hi
    unfold processItem
    rw [hi]
  · intro hi
    unfold processItem
    rw [hi]

/-- Witness for C5: with `now` at 15 whole days and a 14-day window, a
release at instant 0 is one day past the window and classified
`wrongWindow`; a release exactly 14 days old is kept. -/
theorem new_release_window_witness :
    classifyNewRelease (some ((86400 : ℚ) * 15 - 86400 * (14 + 1)))
        (86400 * 15) 14 = NRDecision.wrongWindow
    ∧ classifyNewRelease (some ((86400 : ℚ) * 15 - 86400 * 14))
        (86400 * 15) 14 = NRDecision.keep := by
  constructor
  · have h := (new_release_window 0 (86400 * 15) 14 "US"
      (fun _ => ItemResult.kept) initScanState 0).2.2.2.1
    norm_num at h ⊢
    exact h
  · have h := (new_release_window 0 (86400 * 15) 14 "US"
      (fun _ => ItemResult.kept) initScanState 0).2.2.1
    norm_num at h ⊢
    exact h

/-- Claim C6: the merged percent-positive is the ratio of pooled sums,
not the mean of per-country percentages: observations
(total 100, positive 50) and (total 50, positive 40) merge to 60.0 while
the mean of the per-country percentages (50% and 80%) would be 65.0. -/
theorem pct_pos_pooled :
    pct_pos [(100, 50), (50, 40)] = 60
    ∧ (100 * (50 : ℚ) / 100 + 100 * (40 : ℚ) / 50) / 2 = 65
    ∧ pct_pos [(100, 50), (50, 40)] ≠
        (100 * (50 : ℚ) / 100 + 100 * (40 : ℚ) / 50) / 2 := by
  have h : pct_pos [(100, 50), (50, 40)] = 60 := by
    unfold pct_pos round1 pyRound
    norm_num
  refine ⟨h, by norm_num, ?_⟩
  rw [h]
  norm_num

/-- Claim C7 (amended): the `classify_upcoming` the scanner calls (the
src/app.py copy) keeps an item whose parsed instant lies within
`[now, now + window_days]` and returns `days_until` as the RAW fraction
`(rel - now)/86400` — it is not rounded to an integer; an instant in the
past or beyond the window is rejected (with the same raw fraction
reported); and with no parsed instant the item is kept iff
`include_unknown`, with `days_until` absent. -/
theorem upcoming_window_app (d : AppData) (now : ℚ) (w : ℕ) (inc : Bool) :
    (∀ rel, d.parsedRelease = some rel →
      (0 ≤ (rel - now) / 86400 ∧ (rel - now) / 86400 ≤ (w : ℚ) →
        app_classify_upcoming d now w inc =
          (true, some ((rel - now) / 86400)))
      ∧ ((rel - now) / 86400 < 0 ∨ (rel - now) / 86400 > (w : ℚ) →
        app_classify_upcoming d now w inc =
          (false, some ((rel - now) / 86400))))
    ∧ (d.parsedRelease = none →
        app_classify_upcoming d now w inc = (inc, none)) := by
  constructor
  · intro rel hrel
    constructor
    · intro hin
      unfold app_classify_upcoming
      rw [hrel]
      dsimp only
      rw [if_pos hin]
    · intro hout
      unfold app_classify_upcoming
      rw [hrel]
      dsimp only
      rcases hout with hout | hout
      · rw [if_neg (fun hand => absurd hand.1 (not_le.mpr hout))]
      · rw [if_neg (fun hand => absurd hand.2 (not_le.mpr hout))]
  · intro hnone
    unfold app_classify_upcoming
    rw [hnone]

/-- Witness for C7's amended theorem: with no parsed date and
`include_unknown` set, the item is kept with `days_until` absent. -/
theorem upcoming_window_app_witness :
    app_classify_upcoming ⟨"", false, false, none⟩ 0 7 true = (true, none) :=
  (upcoming_window_app ⟨"", false, false, none⟩ 0 7 true).2 rfl

/-- Counterexample to C7 as stated: the claim says the kept item's
`days_until` is "the elapsed fraction of a day, rounded (an integer
number of days)".  For a release at 2.5 days (instant 259200 with `now`
43200) the scanner's `classify_upcoming` returns `days_until = 5/2`,
which differs from its rounding — the value is not an integer number of
days. -/
theorem upcoming_window_app_counterexample :
    app_classify_upcoming ⟨"4 Jan, 1970", false, true, some 259200⟩
        43200 7 false = (true, some (5 / 2))
    ∧ ((5 : ℚ) / 2) ≠ ((pyRound ((5 : ℚ) / 2) : ℤ) : ℚ) := by
  constructor
  · unfold app_classify_upcoming
    dsimp only
    norm_num
  · have h : ⌊(5 / 2 : ℚ)⌋ = 2 := by norm_num [Int.floor_eq_iff]
    unfold pyRound
    rw [h]
    norm_num

/-- Claim C10 (amended): the two `classify_upcoming` copies are NOT
behaviourally identical; what does hold: (1) they return the same keep
decision whenever a concrete date parsed, the `coming_soon` flag is set,
or the release text is non-empty; (2) for a kept in-window date the
app.py copy reports the raw fractional `days_until` while the library
copy reports its Python-rounded integer; (3) on a blank, unparseable
release date the app.py copy keeps iff `include_unknown` while the
library copy always rejects. -/
theorem classify_upcoming_equiv (d : AppData) (now : ℚ) (w : ℕ)
    (inc : Bool) :
    ((d.parsedRelease ≠ none ∨ d.comingSoon = true ∨ d.releaseText ≠ "") →
      (app_classify_upcoming d now w inc).1 =
        (ss_classify_upcoming d now w inc).1)
    ∧ (∀ rel, d.parsedRelease = some rel →
        0 ≤ (rel - now) / 86400 → (rel - now) / 86400 ≤ (w : ℚ) →
        (app_classify_upcoming d now w inc).2 = some ((rel - now) / 86400)
        ∧ (ss_classify_upcoming d now w inc).2 =
            some (pyRound ((rel - now) / 86400)))
    ∧ (d.parsedRelease = none → d.comingSoon = false → d.releaseText = "" →
        app_classify_upcoming d now w inc = (inc, none)
        ∧ ss_classify_upcoming d now w inc = (false, none)) := by
  refine ⟨?_, ?_, ?_⟩
  · intro h
    unfold app_classify_upcoming ss_classify_upcoming
    cases hp : d.parsedRelease with
    | some rel =>
      dsimp only
      by_cases h1 : (rel - now) / 86400 < 0
      · rw [if_pos h1,
          if_neg (fun hand => absurd hand.1 (not_le.mpr (by linarith)))]
      · rw [if_neg h1]
        by_cases h2 : (rel - now) / 86400 > (w : ℚ)
        · rw [if_pos h2,
            if_neg (fun hand => absurd hand.2 (not_le.mpr (by linarith)))]
        · rw [if_neg h2, if_pos ⟨by linarith, by linarith⟩]
    | none =>
      dsimp only
      rcases h with h | h | h
      · exact absurd hp h
      · rw [if_pos (by simp [is_coming_soon, h])]
      · by_cases hcs : is_coming_soon d = true
        · rw [if_pos hcs]
        · rw [if_neg hcs, if_pos h]
  · intro rel hrel h0 hw
    unfold app_classify_upcoming ss_classify_upcoming
    rw [hrel]
    dsimp only
    rw [if_pos ⟨h0, hw⟩, if_neg (not_lt.mpr h0), if_neg (not_lt.mpr hw)]
    exact ⟨rfl, rfl⟩
  · intro hp hflag htxt
    unfold app_classify_upcoming ss_classify_upcoming
    rw [hp]
    dsimp only
    refine ⟨rfl, ?_⟩
    rw [if_neg (by simp [is_coming_soon, hflag, htxt]),
      if_neg (by simp [htxt])]

/-- Witness for C10's amended theorem: for a concrete in-window date both
copies keep the item. -/
theorem classify_upcoming_equiv_witness :
    (app_classify_upcoming ⟨"4 Jan, 1970", false, true, some 259200⟩
        0 7 true).1 =
      (ss_classify_upcoming ⟨"4 Jan, 1970", false, true, some 259200⟩
        0 7 true).1 :=
  (classify_upcoming_equiv ⟨"4 Jan, 1970", false, true, some 259200⟩
    0 7 true).1 (Or.inl (by simp))

/-- Counterexample to C10 as stated: on a payload with a blank release
date (no parsed instant, no coming-soon flag, empty text) and
`include_unknown = True`, the app.py copy keeps the item while the
steam_sources.py copy rejects it — the two functions do not return the
same result. -/
theorem classify_upcoming_equiv_counterexample :
    (app_classify_upcoming ⟨"", false, false, none⟩ 0 60 true).1 = true
    ∧ (ss_classify_upcoming ⟨"", false, false, none⟩ 0 60 true).1 = false := by
  constructor
  · rfl
  · rfl

end SteamRadar
